import Mathlib

/-!
Verification of the TOTP-Generator credential core (`totp_generator/core_utils.py`).

The development shallowly embeds the `KeyringTotpGenerator` class:

* Python `dict`s (insertion-ordered, string-keyed) become association lists
  `List (String × α)` with operations mirroring `in`, `d[k]`, `d[k] = v`,
  `d.pop(k, None)` and `d.update(other)`;
* JSON values (the persisted blob and everything `json.loads` can produce)
  become the inductive type `Json`;
* the keyring is a single slot holding the serialized credential set, so the
  manager state is the in-memory credential dict plus that slot;
* fallible Python code (statements that can raise an exception that
  `core_utils.py` does not catch) is modelled with `Option`: `none` is an
  uncaught exception escaping the method;
* `pyotp.TOTP(...).now()` is embedded down to the byte level: Python
  `base64.b32decode(secret, casefold=True)`, HMAC-SHA-1 and the dynamic
  truncation of RFC 4226/6238, all over `Nat` with explicit `% 2^32`.
-/

set_option maxRecDepth 40000

/-- JSON values, as produced by Python's `json.loads`.  Numbers are modelled
by `Int` (no claim in this development depends on float payloads); objects
keep their fields in order, like Python dicts. -/
inductive Json where
  | null : Json
  | bool (b : Bool) : Json
  | num (n : Int) : Json
  | str (s : String) : Json
  | arr (elems : List Json) : Json
  | obj (fields : List (String × Json)) : Json

/-- A string-keyed Python dict: an insertion-ordered association list. -/
abbrev Dict (α : Type) := List (String × α)

/-- Python `k in d`. -/
def dictMem (d : Dict α) (k : String) : Bool :=
  d.any (fun p => p.1 == k)

/-- Python `d[k]` / `d.get(k)`: the value stored under `k`, if any. -/
def dictGet? (d : Dict α) (k : String) : Option α :=
  match d with
  | [] => none
  | (k', v) :: rest => if k' = k then some v else dictGet? rest k

/-- Python `d[k] = v`: overwrite in place if the key exists (keeping its
position), otherwise append the new entry at the end. -/
def dictSet (d : Dict α) (k : String) (v : α) : Dict α :=
  if dictMem d k then d.map (fun p => if p.1 = k then (k, v) else p)
  else d ++ [(k, v)]

/-- Python `d.pop(k, None)`: remove the entry with key `k` if present. -/
def dictPop (d : Dict α) (k : String) : Dict α :=
  d.filter (fun p => !(p.1 == k))

/-- Python `d.update(other)` for a dict argument: set each entry of `other`
in order. -/
def dictUpdate (d other : Dict α) : Dict α :=
  other.foldl (fun acc kv => dictSet acc kv.1 kv.2) d

/-- Truthiness of an optional string argument (`if secret:` in Python):
`None` and the empty string are falsy. -/
def pyTruthy : Option String → Bool
  | none => false
  | some s => !(s == "")

/-- State of a `KeyringTotpGenerator`: the in-memory credential dict
(`self.creds`) and the keyring slot for `(SERVICE_NAME, self.user)`.  The
slot holds the blob written by `keyring.set_password`, kept here at the
JSON level: `save_creds` stores `json.dumps(self.creds)`, i.e. `Json.obj`
of the current credential dict. -/
structure GenState where
  creds : Dict Json
  store : Option Json

/-- `save_creds`: `keyring.set_password(SERVICE_NAME, self.user, json.dumps(self.creds))`. -/
def save_creds (st : GenState) : GenState :=
  { st with store := some (Json.obj st.creds) }

/-- A freshly constructed manager over an empty keyring: `__init__` calls
`load_creds`, finds no blob, and initializes `self.creds` to a new dict. -/
def fresh_manager : GenState :=
  { creds := [], store := none }

/-- Python `self.creds[name][field] = v`: fails (`none`) with `KeyError`
if `name` is absent, or `TypeError` if the stored value is not an object. -/
def setItemField (d : Dict Json) (name field : String) (v : Json) : Option (Dict Json) :=
  match dictGet? d name with
  | some (Json.obj o) => some (dictSet d name (Json.obj (dictSet o field v)))
  | _ => none

/-- `KeyringTotpGenerator.add_service`: reject a duplicate name with
`False` and no further action; otherwise `self.creds[name] = dict()`
followed by `self.creds[name]['code'] = secret`, then persist and return
`True`.  (The second assignment cannot actually fail here, since the first
just stored a fresh dict under `name`.) -/
def add_service (st : GenState) (name secret : String) : Option (Bool × GenState) :=
  if dictMem st.creds name then
    some (false, st)
  else
    match setItemField (dictSet st.creds name (Json.obj [])) name "code" (Json.str secret) with
    | none => none
    | some creds2 => some (true, save_creds { st with creds := creds2 })

/-- `KeyringTotpGenerator.edit_service`.  `new_name`/`secret` default to
`None`; `none` is `None` and `some ""` is an explicit empty string.  The
`do` block can fail (`none`) when `old_name` is absent (`KeyError`), a
precondition violation per the spec. -/
def edit_service (st : GenState) (old_name : String)
    (new_name secret : Option String) : Option (Bool × GenState) :=
  if (match new_name with
      | some nn => dictMem st.creds nn
      | none => false) then
    some (false, st)
  else if !(pyTruthy secret) && !(pyTruthy new_name) then
    some (false, st)
  else
    match (if pyTruthy secret then
             setItemField st.creds old_name "code" (Json.str (secret.getD ""))
           else some st.creds) with
    | none => none
    | some creds1 =>
      match (if pyTruthy new_name then
               match dictGet? creds1 old_name with
               | some existing_data =>
                   some (dictSet (dictPop creds1 old_name) (new_name.getD "") existing_data)
               | none => none
             else some creds1) with
      | none => none
      | some creds2 => some (true, save_creds { st with creds := creds2 })

/-- `KeyringTotpGenerator.rm_service`: `self.creds.pop(service, None)`,
persist, return `True`. -/
def rm_service (st : GenState) (service : String) : Bool × GenState :=
  (true, save_creds { st with creds := dictPop st.creds service })

/-- Contents of a file on disk, at the JSON level: either text that
`json.loads` rejects (`ValueError`), or text parsing to a JSON value. -/
inductive FileContent where
  | notJson : FileContent
  | parsed (v : Json) : FileContent

/-- `KeyringTotpGenerator.export_creds_to_file`: `json.dump(self.creds, fh)`
writes the serialized credential dict and the method returns `True`.  The
produced file contents are returned alongside. -/
def export_creds_to_file (st : GenState) : Bool × FileContent :=
  (true, FileContent.parsed (Json.obj st.creds))

/-- Python `self.creds.update(loaded_config)` where `loaded_config` is an
arbitrary `json.loads` result.  A dict argument merges entry by entry.  A
non-dict raises (`none` here): numbers, booleans, `None` and non-empty
strings raise `TypeError`/`ValueError`; the degenerate iterables that
Python would accept (the empty string, the empty list, lists of
two-character strings, lists of string-headed pairs) are modelled too;
list elements that Python would accept only via non-string dict keys fall
outside this string-keyed model and are mapped to `none`. -/
def dict_update_py (d : Dict Json) : Json → Option (Dict Json)
  | Json.obj entries => some (dictUpdate d entries)
  | Json.str s => if s = "" then some d else none
  | Json.arr elems =>
      elems.foldlM (fun acc e =>
        match e with
        | Json.str s =>
            match s.toList with
            | [c1, c2] => some (dictSet acc (String.mk [c1]) (Json.str (String.mk [c2])))
            | _ => none
        | Json.arr [Json.str k, v] => some (dictSet acc k v)
        | _ => none) d
  | _ => none

/-- `KeyringTotpGenerator.import_creds_from_file`.  The argument is the
outcome of `open(file_name, 'r')` followed by a full read: `none` when the
file cannot be opened.  Returns `some (false, st)` on an open failure or a
JSON parse failure (both caught and reported), `none` when the merge step
itself raises (uncaught), and otherwise merges, persists and returns
`True`. -/
def import_creds_from_file (st : GenState) (file : Option FileContent) :
    Option (Bool × GenState) :=
  match file with
  | none => some (false, st)
  | some FileContent.notJson => some (false, st)
  | some (FileContent.parsed v) =>
    match dict_update_py st.creds v with
    | none => none
    | some creds1 => some (true, save_creds { st with creds := creds1 })

/-- Kernel-evaluable decidability of `≤` on strings, routed through the
structurally recursive lexicographic order on character lists.  (Mathlib's
own instance decides via `String.ltb`, whose well-founded recursion does
not reduce inside the kernel; this one lets concrete listings be checked
by `decide`/`rfl`.) -/
instance strLeDecidable : DecidableRel ((· ≤ ·) : String → String → Prop) :=
  fun a b => decidable_of_iff (a.toList ≤ b.toList) String.le_iff_toList_le.symm

/-- `KeyringTotpGenerator.get_services`: `sorted(self.creds)` lists the keys
in ascending order.  Python's `sorted` is a stable comparison sort, so any
stable sort — insertion sort here — produces the identical list. -/
def get_services (st : GenState) : List String :=
  List.insertionSort (· ≤ ·) (st.creds.map Prod.fst)

/-- Little-endian decimal digits of `n`; the first argument is recursion
fuel (any fuel at least `n` is enough). -/
def decDigits : Nat → Nat → List Nat
  | 0, _ => []
  | fuel + 1, n => if n = 0 then [] else n % 10 :: decDigits fuel (n / 10)

/-- Python `str` on a non-negative integer: its decimal representation. -/
def pyStr (n : Nat) : String :=
  if n = 0 then "0"
  else String.mk (((decDigits n n).reverse).map (fun d => Char.ofNat (48 + d)))

/-- Decimal value of a list of characters, most significant first. -/
def pyIntList (l : List Char) : Nat :=
  l.foldl (fun a c => a * 10 + (c.toNat - 48)) 0

/-- Python `int` on a string of decimal digits (possibly zero-padded). -/
def pyInt (s : String) : Nat :=
  pyIntList s.toList

/-- Python `"%06d" % v` for non-negative `v`: the decimal representation,
left-padded with zeros to a minimum width of six. -/
def pyFormat06 (v : Nat) : String :=
  let s := pyStr v
  if s.length < 6 then String.mk (List.replicate (6 - s.length) '0') ++ s else s

/-- pyotp's `while len(str_code) < self.digits: str_code = '0' + str_code`
with `digits = 6`; the loop runs at most six times. -/
def pyotpPadLoop : Nat → String → String
  | 0, s => s
  | fuel + 1, s => if s.length < 6 then pyotpPadLoop fuel ("0" ++ s) else s

/-- Truncate to a 32-bit word. -/
def w32 (x : Nat) : Nat := x % 4294967296

/-- Rotate a 32-bit word left by `n` bits. -/
def rotl32 (n x : Nat) : Nat :=
  w32 ((x <<< n) ||| (x >>> (32 - n)))

/-- Big-endian byte string of `v`, `n` bytes wide (Python
`v.to_bytes(n, 'big')`, truncating high bytes like `% 2^(8n)`). -/
def beBytes : Nat → Nat → List Nat
  | 0, _ => []
  | n + 1, v => beBytes n (v / 256) ++ [v % 256]

/-- Group a byte list into big-endian 32-bit words. -/
def bytesToWords : List Nat → List Nat
  | b0 :: b1 :: b2 :: b3 :: rest =>
      (b0 * 16777216 + b1 * 65536 + b2 * 256 + b3) :: bytesToWords rest
  | _ => []

/-- SHA-1 round function `f_t(b, c, d)`. -/
def sha1F (t b c d : Nat) : Nat :=
  if t < 20 then (b &&& c) ||| ((4294967295 - b) &&& d)
  else if t < 40 then (b ^^^ c) ^^^ d
  else if t < 60 then ((b &&& c) ||| (b &&& d)) ||| (c &&& d)
  else (b ^^^ c) ^^^ d

/-- SHA-1 round constant `K_t`. -/
def sha1K (t : Nat) : Nat :=
  if t < 20 then 1518500249
  else if t < 40 then 1859775393
  else if t < 60 then 2400959708
  else 3395469782

/-- Message-schedule extension: `acc` holds the schedule words produced so
far, most recent first; each step prepends
`rotl1 (w[i-3] ^^^ w[i-8] ^^^ w[i-14] ^^^ w[i-16])`. -/
def sha1Extend : Nat → List Nat → List Nat
  | 0, acc => acc
  | fuel + 1, acc =>
      sha1Extend fuel
        (rotl32 1 (((acc.getD 2 0) ^^^ (acc.getD 7 0)) ^^^
                   ((acc.getD 13 0) ^^^ (acc.getD 15 0))) :: acc)

/-- The 80 SHA-1 rounds over schedule words `ws` starting at round `t`. -/
def sha1Rounds (t : Nat) (ws : List Nat) (a b c d e : Nat) :
    Nat × Nat × Nat × Nat × Nat :=
  match ws with
  | [] => (a, b, c, d, e)
  | w :: rest =>
      let temp := w32 (rotl32 5 a + sha1F t b c d + e + sha1K t + w)
      sha1Rounds (t + 1) rest temp a (rotl32 30 b) c d

/-- Split a byte list into 64-byte blocks (fuel-driven for structural
recursion; fuel `l.length` always suffices). -/
def toBlocks : Nat → List Nat → List (List Nat)
  | _, [] => []
  | 0, _ => []
  | fuel + 1, l => l.take 64 :: toBlocks fuel (l.drop 64)

/-- Fold the SHA-1 compression function over the blocks and serialize the
final state, big-endian. -/
def sha1Process : List (List Nat) → Nat → Nat → Nat → Nat → Nat → List Nat
  | [], h0, h1, h2, h3, h4 =>
      beBytes 4 h0 ++ beBytes 4 h1 ++ beBytes 4 h2 ++ beBytes 4 h3 ++ beBytes 4 h4
  | blk :: rest, h0, h1, h2, h3, h4 =>
      let ws := (sha1Extend 64 ((bytesToWords blk).reverse)).reverse
      let r := sha1Rounds 0 ws h0 h1 h2 h3 h4
      sha1Process rest (w32 (h0 + r.1)) (w32 (h1 + r.2.1)) (w32 (h2 + r.2.2.1))
        (w32 (h3 + r.2.2.2.1)) (w32 (h4 + r.2.2.2.2))

/-- SHA-1 padding: append `0x80`, zero bytes to a length of 56 mod 64, and
the bit length as eight big-endian bytes. -/
def sha1Pad (msg : List Nat) : List Nat :=
  msg ++ [128] ++ List.replicate ((120 - ((msg.length + 1) % 64)) % 64) 0 ++
    beBytes 8 (msg.length * 8)

/-- SHA-1 of a byte string. -/
def sha1 (msg : List Nat) : List Nat :=
  let padded := sha1Pad msg
  sha1Process (toBlocks padded.length padded)
    1732584193 4023233417 2562383102 271733878 3285377520

/-- HMAC-SHA-1 (`hmac.new(key, msg, hashlib.sha1).digest()`), block size 64. -/
def hmacSha1 (key msg : List Nat) : List Nat :=
  let key1 := if 64 < key.length then sha1 key else key
  let key2 := key1 ++ List.replicate (64 - key1.length) 0
  let ipad := key2.map (fun b => b ^^^ 54)
  let opad := key2.map (fun b => b ^^^ 92)
  sha1 (opad ++ sha1 (ipad ++ msg))

/-- The two `binascii.Error` messages that `base64.b32decode` can raise and
that the CLI layer tells apart. -/
inductive B32Error where
  | nonBase32Digit : B32Error
  | incorrectPadding : B32Error
deriving DecidableEq

/-- Python `bytes.upper()` on an ASCII byte: fold `a`-`z` to `A`-`Z`. -/
def byteUpper (c : Char) : Char :=
  if 'a' ≤ c && c ≤ 'z' then Char.ofNat (c.toNat - 32) else c

/-- Value of one base32 alphabet character (`A`-`Z`, `2`-`7`), after
casefolding; `none` for every byte outside the alphabet (including `=`). -/
def b32val (c : Char) : Option Nat :=
  if 'A' ≤ c && c ≤ 'Z' then some (c.toNat - 65)
  else if '2' ≤ c && c ≤ '7' then some (c.toNat - 50 + 26)
  else none

/-- 40-bit accumulator of one (possibly partial) quantum of 5-bit values:
`for c in quanta: acc = (acc << 5) + b32rev[c]`. -/
def quantaAcc (q : List Nat) : Nat :=
  q.foldl (fun a v => a * 32 + v) 0

/-- Assemble decoded 5-bit values into bytes, eight values per 40-bit
quantum, mirroring the CPython loop plus its final partial-quantum fixup:
a trailing quantum of `8 - pad` values is shifted up by `5 * pad` bits and
contributes its leading `(43 - 5 * pad) / 8` bytes. -/
def b32assemble : Nat → List Nat → List Nat
  | _, [] => []
  | 0, _ => []
  | fuel + 1, l =>
      if l.length < 8 then
        let pad := 8 - l.length
        (beBytes 5 (quantaAcc l * 2 ^ (5 * pad))).take ((43 - 5 * pad) / 8)
      else
        beBytes 5 (quantaAcc (l.take 8)) ++ b32assemble fuel (l.drop 8)

/-- Python `base64.b32decode(s, casefold=True)`.  The outer `Option` is a
non-`binascii` failure: a non-ASCII character makes the initial
`s.encode('ascii')` raise a plain `ValueError` that the caller does not
catch.  Then, in CPython's order: a length not a multiple of eight raises
`Incorrect padding`; after casefolding and stripping trailing `=`, any
byte outside the alphabet raises `Non-base32 digit found`; a number of
stripped `=` outside `[0, 1, 3, 4, 6]` raises `Incorrect padding`. -/
def b32decode_py (s : String) : Option (Except B32Error (List Nat)) :=
  if s.toList.any (fun c => 127 < c.toNat) then none
  else if s.length % 8 ≠ 0 then some (Except.error B32Error.incorrectPadding)
  else
    let up := s.toList.map byteUpper
    let stripped := (up.reverse.dropWhile (fun c => c == '=')).reverse
    let padchars := up.length - stripped.length
    match stripped.mapM b32val with
    | none => some (Except.error B32Error.nonBase32Digit)
    | some vals =>
      if padchars == 0 || padchars == 1 || padchars == 3 || padchars == 4 || padchars == 6 then
        some (Except.ok (b32assemble vals.length vals))
      else some (Except.error B32Error.incorrectPadding)

/-- pyotp `OTP.generate_otp(input)` with the TOTP defaults (six digits,
SHA-1): HMAC the eight-byte big-endian counter, take the four bytes at
`offset = digest[-1] & 0xF` (top bit of the first masked off), reduce
modulo `10^6` and zero-pad the decimal string to six characters. -/
def pyotp_generate_otp (key : List Nat) (input : Nat) : String :=
  let hmac_hash := hmacSha1 key (beBytes 8 input)
  let offset := (hmac_hash.getD (hmac_hash.length - 1) 0) &&& 15
  let code := ((hmac_hash.getD offset 0) &&& 127) <<< 24 |||
              ((hmac_hash.getD (offset + 1) 0) &&& 255) <<< 16 |||
              ((hmac_hash.getD (offset + 2) 0) &&& 255) <<< 8 |||
              ((hmac_hash.getD (offset + 3) 0) &&& 255)
  pyotpPadLoop 6 (pyStr (code % 1000000))

/-- `pyotp.TOTP(secret).now()` at integer epoch time `now`: decode the
stored secret as base32 (casefolded, as pyotp passes it to `b32decode`)
and generate the OTP for time step `now / 30`. -/
def pyotp_totp_now (secret : String) (now : Nat) : Option (Except B32Error String) :=
  match b32decode_py secret with
  | none => none
  | some (Except.error e) => some (Except.error e)
  | some (Except.ok key) => some (Except.ok (pyotp_generate_otp key (now / 30)))

/-- `KeyringTotpGenerator.get_totp_code`:
`secret = self.creds[service]['code']; "%06d" % (int(pyotp.TOTP(secret).now()))`.
`none` is an exception the core does not catch itself: a missing service or
`code` field (`KeyError`), a non-object record or non-string code
(`TypeError`), or a non-ASCII secret; a `binascii.Error` from the base32
decode is returned explicitly since the CLI distinguishes its two
messages. -/
def get_totp_code (st : GenState) (service : String) (now : Nat) :
    Option (Except B32Error String) :=
  match dictGet? st.creds service with
  | some (Json.obj rec) =>
    match dictGet? rec "code" with
    | some (Json.str secret) =>
      match pyotp_totp_now secret now with
      | some (Except.ok code) => some (Except.ok (pyFormat06 (pyInt code)))
      | other => other
    | _ => none
  | _ => none

/-- Modelled from the spec: RFC 4226 dynamic truncation of a 20-byte HMAC
digest — the low four bits of the last byte select an offset, and the four
bytes there form a 31-bit big-endian integer (the top bit is masked). -/
def dt31 (mac : List Nat) : Nat :=
  let offset := (mac.getD 19 0) % 16
  ((mac.getD offset 0) % 128) * 16777216 +
    (mac.getD (offset + 1) 0) * 65536 +
    (mac.getD (offset + 2) 0) * 256 +
    (mac.getD (offset + 3) 0)

/-- Modelled from the spec: the RFC 6238 TOTP value for a shared secret at
wall-clock time `now` — the RFC 4226 HMAC-OTP of the 30-second time-step
counter, i.e. the dynamic truncation of the HMAC-SHA-1 digest of the
eight-byte big-endian counter, reduced modulo `10^6`.  This is the
independent reference the code's pyotp path is compared against. -/
def rfc6238_totp (key : List Nat) (now : Nat) : Nat :=
  dt31 (hmacSha1 key (beBytes 8 (now / 30))) % 1000000

/-- Modelled from the spec: a TOTP value "formatted as exactly six decimal
digits, zero-padded on the left". -/
def sixDigitString (v : Nat) : String :=
  String.mk (List.replicate (6 - (pyStr v).length) '0') ++ pyStr v

theorem dictMem_nil (k : String) : dictMem ([] : Dict α) k = false := rfl

theorem dictMem_cons (p : String × α) (rest : Dict α) (k : String) :
    dictMem (p :: rest) k = ((p.1 == k) || dictMem rest k) := by
  simp [dictMem]

theorem dictMem_eq_false_iff (d : Dict α) (k : String) :
    dictMem d k = false ↔ ∀ p ∈ d, p.1 ≠ k := by
  simp [dictMem, List.any_eq_false]

theorem dictMem_eq_true_iff (d : Dict α) (k : String) :
    dictMem d k = true ↔ k ∈ d.map Prod.fst := by
  induction d with
  | nil => simp [dictMem]
  | cons p rest ih =>
      rw [dictMem_cons]
      by_cases hp : p.1 = k
      · simp [hp]
      · simp only [List.map_cons, List.mem_cons]
        simp [hp, ih, beq_iff_eq, Ne.symm hp]

theorem dictSet_of_not_mem {d : Dict α} {k : String} (h : dictMem d k = false) (v : α) :
    dictSet d k v = d ++ [(k, v)] := by
  simp [dictSet, h]

theorem dictGet?_append_of_not_mem {d : Dict α} {k : String} (h : dictMem d k = false)
    (l : Dict α) : dictGet? (d ++ l) k = dictGet? l k := by
  induction d with
  | nil => rfl
  | cons p rest ih =>
      obtain ⟨k', v⟩ := p
      rw [dictMem_cons] at h
      simp only [Bool.or_eq_false_iff, beq_eq_false_iff_ne] at h
      simp only [List.cons_append, dictGet?, if_neg h.1]
      exact ih h.2

theorem dictGet?_map_set {d : Dict α} {k : String} (h : dictMem d k = true) (v : α) :
    dictGet? (d.map (fun p => if p.1 = k then (k, v) else p)) k = some v := by
  induction d with
  | nil => simp [dictMem] at h
  | cons p rest ih =>
      obtain ⟨k', v'⟩ := p
      by_cases hp : k' = k
      · subst hp
        rw [List.map_cons, if_pos rfl]
        simp [dictGet?]
      · rw [dictMem_cons] at h
        simp only [beq_iff_eq] at h
        simp only [List.map_cons]
        simp only [if_neg hp]
        simp only [dictGet?, if_neg hp]
        apply ih
        rcases Bool.or_eq_true_iff.mp h with h1 | h2
        · exact absurd (of_decide_eq_true (by exact h1)) hp
        · exact h2

theorem dictGet?_dictSet_self (d : Dict α) (k : String) (v : α) :
    dictGet? (dictSet d k v) k = some v := by
  unfold dictSet
  by_cases h : dictMem d k
  · simp only [h, if_true]
    exact dictGet?_map_set h v
  · simp only [Bool.not_eq_true] at h
    simp only [h, Bool.false_eq_true, if_false]
    rw [dictGet?_append_of_not_mem h]
    simp [dictGet?]

theorem map_set_of_not_mem {d : Dict α} {k : String} (h : dictMem d k = false) (v : α) :
    d.map (fun p => if p.1 = k then (k, v) else p) = d := by
  induction d with
  | nil => rfl
  | cons p rest ih =>
      obtain ⟨k0, v0⟩ := p
      rw [dictMem_cons] at h
      simp only [Bool.or_eq_false_iff, beq_eq_false_iff_ne] at h
      rw [List.map_cons, if_neg h.1, ih h.2]

theorem dictGet?_dictSet_ne {k k' : String} (hne : k ≠ k') (d : Dict α) (v : α) :
    dictGet? (dictSet d k v) k' = dictGet? d k' := by
  unfold dictSet
  by_cases h : dictMem d k
  · simp only [h, if_true]
    clear h
    induction d with
    | nil => rfl
    | cons p rest ih =>
        obtain ⟨k0, v0⟩ := p
        by_cases hp : k0 = k
        · subst hp
          rw [List.map_cons, if_pos rfl]
          simp only [dictGet?, if_neg hne, if_neg (show ¬ k0 = k' from hne)]
          exact ih
        · rw [List.map_cons, if_neg (by simpa using hp)]
          simp only [dictGet?]
          by_cases he : k0 = k'
          · simp [he]
          · simp only [if_neg he]
            exact ih
  · simp only [Bool.not_eq_true] at h
    simp only [h, Bool.false_eq_true, if_false]
    clear h
    induction d with
    | nil => simp [dictGet?, if_neg hne]
    | cons p rest ih =>
        obtain ⟨k0, v0⟩ := p
        simp only [List.cons_append, dictGet?]
        by_cases he : k0 = k'
        · simp [he]
        · simp only [if_neg he]
          exact ih

theorem dictSet_append_single {d : Dict α} {k : String} (h : dictMem d k = false) (v v' : α) :
    dictSet (d ++ [(k, v)]) k v' = d ++ [(k, v')] := by
  unfold dictSet
  rw [if_pos]
  · rw [List.map_append, map_set_of_not_mem h, List.map_cons, if_pos rfl, List.map_nil]
  · rw [dictMem_eq_true_iff]
    simp

theorem dictMem_dictPop (d : Dict α) (k : String) : dictMem (dictPop d k) k = false := by
  rw [dictMem_eq_false_iff]
  intro p hp
  have := (List.mem_filter.mp hp).2
  simpa using this

theorem dictPop_idem (d : Dict α) (k : String) : dictPop (dictPop d k) k = dictPop d k := by
  unfold dictPop
  rw [List.filter_filter]
  apply List.filter_congr
  intro p _
  rw [Bool.and_self]

theorem dictUpdate_nil (d : Dict α) : dictUpdate d [] = d := rfl

theorem dictUpdate_cons (d : Dict α) (p : String × α) (rest : Dict α) :
    dictUpdate d (p :: rest) = dictUpdate (dictSet d p.1 p.2) rest := rfl

theorem dictUpdate_append_of_disjoint {other : Dict α} :
    ∀ {d : Dict α}, (∀ p ∈ other, dictMem d p.1 = false) → (other.map Prod.fst).Nodup →
    dictUpdate d other = d ++ other := by
  induction other with
  | nil => intro d _ _; simp [dictUpdate_nil]
  | cons p rest ih =>
      intro d hdisj hnd
      obtain ⟨k, v⟩ := p
      rw [dictUpdate_cons]
      have h1 : dictMem d k = false := hdisj (k, v) (by simp)
      have hset : dictSet d k v = d ++ [(k, v)] := dictSet_of_not_mem h1 v
      rw [hset, ih ?_ ?_, List.append_assoc]
      · rfl
      · intro q hq
        rw [dictMem_eq_false_iff]
        intro r hr
        rcases List.mem_append.mp hr with hrd | hrk
        · exact (dictMem_eq_false_iff d q.1).mp (hdisj q (by simp [hq])) r hrd
        · simp only [List.mem_singleton] at hrk
          subst hrk
          simp only [List.map_cons, List.nodup_cons] at hnd
          intro hcontra
          have hk : k = q.1 := hcontra
          exact hnd.1 (by rw [hk]; exact List.mem_map_of_mem Prod.fst hq)
      · simp only [List.map_cons, List.nodup_cons] at hnd
        exact hnd.2

theorem dictGet?_dictUpdate_of_not_mem {other : Dict α} {k : String}
    (h : dictMem other k = false) : ∀ (d : Dict α), dictGet? (dictUpdate d other) k = dictGet? d k := by
  induction other with
  | nil => intro d; rfl
  | cons p rest ih =>
      intro d
      obtain ⟨k0, v0⟩ := p
      rw [dictMem_cons] at h
      simp only [Bool.or_eq_false_iff, beq_eq_false_iff_ne] at h
      rw [dictUpdate_cons, ih h.2, dictGet?_dictSet_ne h.1]

theorem dictGet?_dictUpdate_of_mem {other : Dict α} {k : String}
    (hnd : (other.map Prod.fst).Nodup) (h : dictMem other k = true) :
    ∀ (d : Dict α), dictGet? (dictUpdate d other) k = dictGet? other k := by
  induction other with
  | nil => simp [dictMem] at h
  | cons p rest ih =>
      intro d
      obtain ⟨k0, v0⟩ := p
      simp only [List.map_cons, List.nodup_cons] at hnd
      by_cases hp : k0 = k
      · subst hp
        have hrest : dictMem rest k0 = false := by
          rw [dictMem_eq_false_iff]
          intro q hq hcontra
          have hk : k0 = q.1 := hcontra.symm
          exact hnd.1 (by rw [hk]; exact List.mem_map_of_mem Prod.fst hq)
        rw [dictUpdate_cons, dictGet?_dictUpdate_of_not_mem hrest]
        simp [dictGet?, dictGet?_dictSet_self]
      · rw [dictMem_cons] at h
        rcases Bool.or_eq_true_iff.mp h with h1 | h2
        · exact absurd (of_decide_eq_true (by exact h1)) hp
        · rw [dictUpdate_cons]
          rw [ih hnd.2 h2]
          simp [dictGet?, if_neg hp]

theorem decDigits_lt_ten : ∀ (fuel n : Nat), ∀ d ∈ decDigits fuel n, d < 10 := by
  intro fuel
  induction fuel with
  | zero => intro n d hd; simp [decDigits] at hd
  | succ f ih =>
      intro n d hd
      unfold decDigits at hd
      by_cases hn : n = 0
      · simp [hn] at hd
      · rw [if_neg hn] at hd
        rcases List.mem_cons.mp hd with h | h
        · subst h; exact Nat.mod_lt n (by omega)
        · exact ih (n / 10) d h

theorem valLE_decDigits : ∀ (fuel n : Nat), n ≤ fuel →
    (decDigits fuel n).foldr (fun d acc => d + 10 * acc) 0 = n := by
  intro fuel
  induction fuel with
  | zero => intro n h; interval_cases n; rfl
  | succ f ih =>
      intro n h
      unfold decDigits
      by_cases hn : n = 0
      · simp [hn]
      · rw [if_neg hn]
        simp only [List.foldr_cons]
        rw [ih (n / 10) (by omega)]
        omega

theorem foldlBE_reverse (l : List Nat) :
    ∀ acc : Nat, (l.reverse).foldl (fun a d => a * 10 + d) acc =
      acc * 10 ^ l.length + l.foldr (fun d acc => d + 10 * acc) 0 := by
  induction l with
  | nil => intro acc; simp
  | cons d rest ih =>
      intro acc
      simp only [List.reverse_cons, List.foldl_append, List.foldl_cons, List.foldl_nil,
        List.foldr_cons, List.length_cons]
      rw [ih acc]
      ring

theorem charDigit_toNat {d : Nat} (h : d < 10) : (Char.ofNat (48 + d)).toNat = 48 + d := by
  interval_cases d <;> rfl

theorem charDigit_bounds {d : Nat} (h : d < 10) :
    '0' ≤ Char.ofNat (48 + d) ∧ Char.ofNat (48 + d) ≤ '9' := by
  interval_cases d <;> exact ⟨by decide, by decide⟩

theorem pyIntList_map_digits (l : List Nat) (h : ∀ d ∈ l, d < 10) :
    ∀ acc : Nat, (l.map (fun d => Char.ofNat (48 + d))).foldl (fun a c => a * 10 + (c.toNat - 48)) acc =
      l.foldl (fun a d => a * 10 + d) acc := by
  induction l with
  | nil => intro acc; rfl
  | cons d rest ih =>
      intro acc
      simp only [List.map_cons, List.foldl_cons]
      rw [charDigit_toNat (h d (by simp))]
      have : 48 + d - 48 = d := by omega
      rw [this]
      exact ih (fun x hx => h x (by simp [hx])) _

theorem pyInt_pyStr (n : Nat) : pyInt (pyStr n) = n := by
  unfold pyInt pyStr
  by_cases hn : n = 0
  · subst hn; rfl
  · rw [if_neg hn]
    show pyIntList _ = n
    unfold pyIntList
    have hmk : (String.mk (((decDigits n n).reverse).map (fun d => Char.ofNat (48 + d)))).toList =
        ((decDigits n n).reverse).map (fun d => Char.ofNat (48 + d)) := rfl
    rw [hmk]
    have hlt : ∀ d ∈ (decDigits n n).reverse, d < 10 := by
      intro d hd
      exact decDigits_lt_ten n n d (List.mem_reverse.mp hd)
    rw [pyIntList_map_digits _ hlt 0]
    rw [foldlBE_reverse]
    rw [valLE_decDigits n n (Nat.le_refl n)]
    simp

theorem pyInt_zero_prepend (s : String) : pyInt ("0" ++ s) = pyInt s := by
  unfold pyInt pyIntList
  have h : ("0" ++ s).toList = '0' :: s.toList := by
    show ("0" ++ s).data = '0' :: s.data
    rw [String.data_append]
    rfl
  rw [h]
  rfl

theorem pyInt_pyotpPadLoop (fuel : Nat) (s : String) :
    pyInt (pyotpPadLoop fuel s) = pyInt s := by
  induction fuel generalizing s with
  | zero => rfl
  | succ f ih =>
      unfold pyotpPadLoop
      by_cases h : s.length < 6
      · rw [if_pos h, ih, pyInt_zero_prepend]
      · rw [if_neg h]

theorem decDigits_length_le : ∀ (k : Nat) {fuel n : Nat}, n < 10 ^ k →
    (decDigits fuel n).length ≤ k := by
  intro k
  induction k with
  | zero =>
      intro fuel n h
      simp only [pow_zero, Nat.lt_one_iff] at h
      subst h
      cases fuel <;> simp [decDigits]
  | succ j ih =>
      intro fuel n h
      cases fuel with
      | zero => simp [decDigits]
      | succ f =>
          unfold decDigits
          by_cases hn : n = 0
          · simp [hn]
          · rw [if_neg hn]
            simp only [List.length_cons]
            have hdiv : n / 10 < 10 ^ j := by
              rw [Nat.div_lt_iff_lt_mul (by omega)]
              calc n < 10 ^ (j + 1) := h
                _ = 10 ^ j * 10 := by ring
            exact Nat.succ_le_succ (ih hdiv)

theorem pyStr_length_le {n k : Nat} (hk : 0 < k) (h : n < 10 ^ k) : (pyStr n).length ≤ k := by
  unfold pyStr
  by_cases hn : n = 0
  · rw [if_pos hn]
    show 1 ≤ k
    omega
  · rw [if_neg hn]
    show (List.map (fun d => Char.ofNat (48 + d)) (decDigits n n).reverse).length ≤ k
    rw [List.length_map, List.length_reverse]
    exact decDigits_length_le k h

theorem pyFormat06_eq_sixDigitString (v : Nat) : pyFormat06 v = sixDigitString v := by
  unfold pyFormat06 sixDigitString
  by_cases h : (pyStr v).length < 6
  · rw [if_pos h]
  · rw [if_neg h]
    have h6 : 6 - (pyStr v).length = 0 := by omega
    rw [h6]
    show String.mk [] ++ pyStr v = pyStr v
    have : String.mk [] = "" := rfl
    rw [this, String.empty_append]

theorem sixDigitString_length {v : Nat} (h : v < 1000000) : (sixDigitString v).length = 6 := by
  unfold sixDigitString
  have hle : (pyStr v).length ≤ 6 := pyStr_length_le (by omega) (by norm_num; omega)
  rw [String.length_append]
  show (List.replicate (6 - (pyStr v).length) '0').length + (pyStr v).length = 6
  rw [List.length_replicate]
  omega

theorem sixDigitString_digits {v : Nat} (c : Char) (hc : c ∈ (sixDigitString v).toList) :
    '0' ≤ c ∧ c ≤ '9' := by
  unfold sixDigitString at hc
  have : (String.mk (List.replicate (6 - (pyStr v).length) '0') ++ pyStr v).toList =
      List.replicate (6 - (pyStr v).length) '0' ++ (pyStr v).toList := by
    show (_ ++ _ : String).data = _
    rw [String.data_append]
    rfl
  rw [this] at hc
  rcases List.mem_append.mp hc with h | h
  · have := List.eq_of_mem_replicate h
    subst this
    exact ⟨by decide, by decide⟩
  · unfold pyStr at h
    by_cases hn : v = 0
    · rw [if_pos hn] at h
      have : c = '0' := by simpa using h
      subst this
      exact ⟨by decide, by decide⟩
    · rw [if_neg hn] at h
      have h' : c ∈ List.map (fun d => Char.ofNat (48 + d)) (decDigits v v).reverse := h
      rcases List.mem_map.mp h' with ⟨d, hd, rfl⟩
      exact charDigit_bounds (decDigits_lt_ten v v d (List.mem_reverse.mp hd))

theorem beBytes_length (n v : Nat) : (beBytes n v).length = n := by
  induction n generalizing v with
  | zero => rfl
  | succ m ih => simp [beBytes, ih]

theorem beBytes_lt (n v : Nat) : ∀ b ∈ beBytes n v, b < 256 := by
  induction n generalizing v with
  | zero => intro b hb; simp [beBytes] at hb
  | succ m ih =>
      intro b hb
      unfold beBytes at hb
      rcases List.mem_append.mp hb with h | h
      · exact ih (v / 256) b h
      · simp only [List.mem_singleton] at h
        subst h
        exact Nat.mod_lt v (by omega)

theorem sha1Process_length (blocks : List (List Nat)) :
    ∀ h0 h1 h2 h3 h4, (sha1Process blocks h0 h1 h2 h3 h4).length = 20 := by
  induction blocks with
  | nil =>
      intro h0 h1 h2 h3 h4
      simp [sha1Process, beBytes_length]
  | cons blk rest ih =>
      intro h0 h1 h2 h3 h4
      unfold sha1Process
      apply ih

theorem sha1Process_lt (blocks : List (List Nat)) :
    ∀ h0 h1 h2 h3 h4, ∀ b ∈ sha1Process blocks h0 h1 h2 h3 h4, b < 256 := by
  induction blocks with
  | nil =>
      intro h0 h1 h2 h3 h4 b hb
      unfold sha1Process at hb
      rcases List.mem_append.mp hb with h | h
      case _ =>
        rcases List.mem_append.mp h with h | h
        case _ =>
          rcases List.mem_append.mp h with h | h
          case _ =>
            rcases List.mem_append.mp h with h | h
            · exact beBytes_lt 4 h0 b h
            · exact beBytes_lt 4 h1 b h
          case _ => exact beBytes_lt 4 h2 b h
        case _ => exact beBytes_lt 4 h3 b h
      case _ => exact beBytes_lt 4 h4 b h
  | cons blk rest ih =>
      intro h0 h1 h2 h3 h4 b hb
      unfold sha1Process at hb
      exact ih _ _ _ _ _ b hb

theorem sha1_length (msg : List Nat) : (sha1 msg).length = 20 := by
  unfold sha1
  apply sha1Process_length

theorem sha1_lt (msg : List Nat) : ∀ b ∈ sha1 msg, b < 256 := by
  unfold sha1
  apply sha1Process_lt

theorem hmacSha1_length (key msg : List Nat) : (hmacSha1 key msg).length = 20 := by
  unfold hmacSha1
  apply sha1_length

theorem hmacSha1_lt (key msg : List Nat) : ∀ b ∈ hmacSha1 key msg, b < 256 := by
  unfold hmacSha1
  apply sha1_lt

theorem getD_lt_256 {l : List Nat} (h : ∀ b ∈ l, b < 256) (i : Nat) : l.getD i 0 < 256 := by
  rw [List.getD_eq_getElem?_getD]
  cases hx : l[i]? with
  | none => simp
  | some x =>
      simp only [Option.getD_some]
      exact h x (List.getElem?_mem hx)

theorem land_fifteen (x : Nat) : x &&& 15 = x % 16 := by
  have h := Nat.and_pow_two_sub_one_eq_mod x 4
  norm_num at h
  exact h

theorem land_127 (x : Nat) : x &&& 127 = x % 128 := by
  have h := Nat.and_pow_two_sub_one_eq_mod x 7
  norm_num at h
  exact h

theorem land_255 (x : Nat) : x &&& 255 = x % 256 := by
  have h := Nat.and_pow_two_sub_one_eq_mod x 8
  norm_num at h
  exact h

theorem or_eq_add_of_mod_lt {k x y : Nat} (hx : x % 2 ^ k = 0) (hy : y < 2 ^ k) :
    x ||| y = x + y := by
  have hdecomp : x = 2 ^ k * (x / 2 ^ k) := by
    conv_lhs => rw [← Nat.div_add_mod x (2 ^ k)]
    rw [hx, Nat.add_zero]
  rw [hdecomp, ← Nat.mul_add_lt_is_or hy (x / 2 ^ k)]

theorem or_assemble {a b c d : Nat} (_ha : a < 128) (hb : b < 256) (hc : c < 256) (hd : d < 256) :
    a <<< 24 ||| b <<< 16 ||| c <<< 8 ||| d = a * 16777216 + b * 65536 + c * 256 + d := by
  rw [Nat.shiftLeft_eq, Nat.shiftLeft_eq, Nat.shiftLeft_eq]
  have s1 : a * 2 ^ 24 ||| b * 2 ^ 16 = a * 2 ^ 24 + b * 2 ^ 16 := by
    apply or_eq_add_of_mod_lt (k := 24)
    · exact Nat.mul_mod_left a (2 ^ 24)
    · have h2 : (2 : Nat) ^ 16 = 65536 := by norm_num
      have h3 : (2 : Nat) ^ 24 = 16777216 := by norm_num
      rw [h2, h3]
      omega
  rw [s1]
  have s2 : a * 2 ^ 24 + b * 2 ^ 16 ||| c * 2 ^ 8 = a * 2 ^ 24 + b * 2 ^ 16 + c * 2 ^ 8 := by
    apply or_eq_add_of_mod_lt (k := 16)
    · have e : a * 2 ^ 24 + b * 2 ^ 16 = (a * 2 ^ 8 + b) * 2 ^ 16 := by ring
      rw [e, Nat.mul_mod_left]
    · have h2 : (2 : Nat) ^ 8 = 256 := by norm_num
      have h3 : (2 : Nat) ^ 16 = 65536 := by norm_num
      rw [h2, h3]
      omega
  rw [s2]
  have s3 : a * 2 ^ 24 + b * 2 ^ 16 + c * 2 ^ 8 ||| d = a * 2 ^ 24 + b * 2 ^ 16 + c * 2 ^ 8 + d := by
    apply or_eq_add_of_mod_lt (k := 8)
    · have e : a * 2 ^ 24 + b * 2 ^ 16 + c * 2 ^ 8 = (a * 2 ^ 16 + b * 2 ^ 8 + c) * 2 ^ 8 := by ring
      rw [e, Nat.mul_mod_left]
    · have h2 : (2 : Nat) ^ 8 = 256 := by norm_num
      rw [h2]
      omega
  rw [s3]
  norm_num

theorem pyotp_code_eq_dt31 {mac : List Nat} (hlen : mac.length = 20)
    (hb : ∀ b ∈ mac, b < 256) :
    ((mac.getD ((mac.getD (mac.length - 1) 0) &&& 15) 0) &&& 127) <<< 24 |||
      ((mac.getD (((mac.getD (mac.length - 1) 0) &&& 15) + 1) 0) &&& 255) <<< 16 |||
      ((mac.getD (((mac.getD (mac.length - 1) 0) &&& 15) + 2) 0) &&& 255) <<< 8 |||
      ((mac.getD (((mac.getD (mac.length - 1) 0) &&& 15) + 3) 0) &&& 255) = dt31 mac := by
  unfold dt31
  rw [hlen]
  show _ = _
  rw [land_fifteen]
  rw [land_127, land_255, land_255, land_255]
  rw [Nat.mod_eq_of_lt (getD_lt_256 hb _), Nat.mod_eq_of_lt (getD_lt_256 hb _),
    Nat.mod_eq_of_lt (getD_lt_256 hb _)]
  exact or_assemble (Nat.mod_lt _ (by omega)) (getD_lt_256 hb _) (getD_lt_256 hb _)
    (getD_lt_256 hb _)

theorem pyotp_generate_otp_value (key : List Nat) (c : Nat) :
    pyInt (pyotp_generate_otp key c) = dt31 (hmacSha1 key (beBytes 8 c)) % 1000000 := by
  simp only [pyotp_generate_otp]
  rw [pyInt_pyotpPadLoop, pyInt_pyStr]
  rw [pyotp_code_eq_dt31 (hmacSha1_length key (beBytes 8 c)) (hmacSha1_lt key (beBytes 8 c))]

/-- C1: for every service in the credential set whose stored `code` is a
valid base32 secret, `get_totp_code` returns the standard RFC 6238 TOTP
value for that secret at the current time — 30-second time step,
HMAC-SHA-1, dynamically truncated and reduced modulo `10^6` — formatted
as exactly six decimal digits, zero-padded on the left (42 renders as
`"000042"`). -/
theorem get_totp_code_matches_rfc6238 (st : GenState) (service secret : String)
    (rec : Dict Json) (key : List Nat) (now : Nat)
    (h1 : dictGet? st.creds service = some (Json.obj rec))
    (h2 : dictGet? rec "code" = some (Json.str secret))
    (h3 : b32decode_py secret = some (Except.ok key)) :
    get_totp_code st service now = some (Except.ok (sixDigitString (rfc6238_totp key now)))
    ∧ (sixDigitString (rfc6238_totp key now)).length = 6
    ∧ (∀ c ∈ (sixDigitString (rfc6238_totp key now)).toList, '0' ≤ c ∧ c ≤ '9')
    ∧ sixDigitString 42 = "000042" := by
  have hlt : rfc6238_totp key now < 1000000 := by
    unfold rfc6238_totp
    exact Nat.mod_lt _ (by omega)
  refine ⟨?_, sixDigitString_length hlt, fun c hc => sixDigitString_digits c hc, rfl⟩
  simp only [get_totp_code, h1, h2, pyotp_totp_now, h3]
  rw [pyotp_generate_otp_value]
  rw [pyFormat06_eq_sixDigitString]
  rfl

/-- Witness for C1 at the spec's example secret `"MFRGGZDFMZTWQ2LP"`
(which decodes to the bytes of `"abcdefghio"`) and epoch time 59; the
resulting group value was independently cross-checked against a reference
implementation of RFC 6238. -/
theorem get_totp_code_matches_rfc6238_witness :
    get_totp_code ⟨[("svc", Json.obj [("code", Json.str "MFRGGZDFMZTWQ2LP")])], none⟩ "svc" 59 =
      some (Except.ok (sixDigitString
        (rfc6238_totp [97, 98, 99, 100, 101, 102, 103, 104, 105, 111] 59)))
    ∧ (sixDigitString (rfc6238_totp [97, 98, 99, 100, 101, 102, 103, 104, 105, 111] 59)).length = 6
    ∧ sixDigitString (rfc6238_totp [97, 98, 99, 100, 101, 102, 103, 104, 105, 111] 59) = "227810" := by
  have h := get_totp_code_matches_rfc6238
    ⟨[("svc", Json.obj [("code", Json.str "MFRGGZDFMZTWQ2LP")])], none⟩ "svc" "MFRGGZDFMZTWQ2LP"
    [("code", Json.str "MFRGGZDFMZTWQ2LP")] [97, 98, 99, 100, 101, 102, 103, 104, 105, 111] 59
    rfl rfl rfl
  exact ⟨h.1, h.2.1, rfl⟩

/-- C3 counterexample: renaming service `"a"` to its own current name `"a"`
(with a fresh secret, so the edit is not empty) is rejected: the collision
check `if new_name in self.creds` fires before anything else and the call
returns `False` with the state unchanged — not the accepting behavior the
claim describes. -/
theorem edit_self_rename_rejected_counterexample :
    edit_service ⟨[("a", Json.obj [("code", Json.str "OLDSECRET")])], none⟩ "a"
      (some "a") (some "NEWSECRET") =
      some (false, ⟨[("a", Json.obj [("code", Json.str "OLDSECRET")])], none⟩) := rfl

/-- C3 amended: renaming a service to its own current name IS treated as a
duplicate-name collision — for every credential set containing `n`,
`edit_service n (new_name := n)` returns `false` and leaves the state
unchanged, whatever the secret argument. -/
theorem edit_self_rename_rejected (st : GenState) (n : String) (s : Option String)
    (h : dictMem st.creds n = true) :
    edit_service st n (some n) s = some (false, st) := by
  simp only [edit_service, h, if_true]

/-- Witness for the amended C3. -/
theorem edit_self_rename_rejected_witness :
    dictMem ([("a", Json.obj [("code", Json.str "X")])] : Dict Json) "a" = true
    ∧ edit_service ⟨[("a", Json.obj [("code", Json.str "X")])], none⟩ "a"
        (some "a") (some "Y") =
        some (false, ⟨[("a", Json.obj [("code", Json.str "X")])], none⟩) :=
  ⟨rfl, edit_self_rename_rejected ⟨[("a", Json.obj [("code", Json.str "X")])], none⟩ "a"
    (some "Y") rfl⟩

/-- C10: `edit_service` treats empty-string arguments like absent ones: the
all-empty edit is a rejected no-change edit for every state (whether or not
`""` is even a key); an empty-string secret behaves exactly like `None`
(so no edit ever writes an empty `code` — the secret branch is never
taken); and an empty-string new name behaves exactly like `None` whenever
`""` is not itself a service name (service names are non-empty by the
spec's data model). -/
theorem edit_empty_args_like_none :
    (∀ st old_name, edit_service st old_name (some "") (some "") = some (false, st))
    ∧ (∀ st old_name nn, edit_service st old_name nn (some "") =
        edit_service st old_name nn none)
    ∧ (∀ st old_name s, dictMem st.creds "" = false →
        edit_service st old_name (some "") s = edit_service st old_name none s) := by
  refine ⟨?_, ?_, ?_⟩
  · intro st old_name
    unfold edit_service
    by_cases h : dictMem st.creds ""
    · simp [h]
    · simp only [Bool.not_eq_true] at h
      simp [h, pyTruthy]
  · intro st old_name nn
    rfl
  · intro st old_name s h
    unfold edit_service
    simp only [h]
    rfl

/-- Witness for C10 (the third part has a hypothesis). -/
theorem edit_empty_args_like_none_witness :
    edit_service ⟨[("a", Json.obj [("code", Json.str "X")])], none⟩ "a"
      (some "") (some "") =
      some (false, ⟨[("a", Json.obj [("code", Json.str "X")])], none⟩)
    ∧ edit_service ⟨[("a", Json.obj [("code", Json.str "X")])], none⟩ "a"
        (some "") (some "Y") =
        edit_service ⟨[("a", Json.obj [("code", Json.str "X")])], none⟩ "a" none (some "Y") :=
  ⟨edit_empty_args_like_none.1 ⟨[("a", Json.obj [("code", Json.str "X")])], none⟩ "a",
   edit_empty_args_like_none.2.2 ⟨[("a", Json.obj [("code", Json.str "X")])], none⟩ "a"
     (some "Y") rfl⟩

/-- C7: `rm_service` always returns `true`, afterwards the name is absent,
and a second removal returns the same result on the same state — removal
is idempotent. -/
theorem rm_service_idempotent (st : GenState) (n : String) :
    (rm_service st n).1 = true
    ∧ dictMem (rm_service st n).2.creds n = false
    ∧ rm_service (rm_service st n).2 n = rm_service st n := by
  refine ⟨rfl, dictMem_dictPop st.creds n, ?_⟩
  simp only [rm_service, save_creds]
  rw [dictPop_idem]

/-- C2: `add_service` on an existing name fails with `false` and no state
change (no persist, stored secret untouched); on a fresh name it appends a
record with `code = secret`, persists, returns `true`, after which
`get_services` lists the name exactly once and a second `add_service` for
the same name returns `false` leaving the state unchanged. -/
theorem add_service_contract (st : GenState) (n s other : String) :
    (dictMem st.creds n = true → add_service st n s = some (false, st))
    ∧ (dictMem st.creds n = false →
        ∃ st', add_service st n s = some (true, st')
          ∧ st'.creds = st.creds ++ [(n, Json.obj [("code", Json.str s)])]
          ∧ st'.store = some (Json.obj st'.creds)
          ∧ (get_services st').count n = 1
          ∧ add_service st' n other = some (false, st')) := by
  constructor
  · intro h
    simp [add_service, h]
  · intro h
    have hset : dictSet st.creds n (Json.obj []) = st.creds ++ [(n, Json.obj [])] :=
      dictSet_of_not_mem h _
    have hget : dictGet? (st.creds ++ [(n, Json.obj [])]) n = some (Json.obj []) := by
      rw [dictGet?_append_of_not_mem h]
      simp [dictGet?]
    have hfield : setItemField (st.creds ++ [(n, Json.obj [])]) n "code" (Json.str s) =
        some (st.creds ++ [(n, Json.obj [("code", Json.str s)])]) := by
      unfold setItemField
      rw [hget]
      show some (dictSet (st.creds ++ [(n, Json.obj [])]) n (Json.obj [("code", Json.str s)])) = _
      rw [dictSet_append_single h]
    refine ⟨save_creds { st with creds := st.creds ++ [(n, Json.obj [("code", Json.str s)])] },
      ?_, rfl, rfl, ?_, ?_⟩
    · simp only [add_service, h, Bool.false_eq_true, if_false]
      rw [hset, hfield]
    · have hperm : List.Perm (get_services (save_creds
          { st with creds := st.creds ++ [(n, Json.obj [("code", Json.str s)])] }))
          ((st.creds ++ [(n, Json.obj [("code", Json.str s)])]).map Prod.fst) :=
        List.perm_insertionSort _ _
      rw [hperm.count_eq]
      rw [List.map_append, List.count_append]
      have h0 : (st.creds.map Prod.fst).count n = 0 := by
        rw [List.count_eq_zero]
        intro hmem
        rw [← dictMem_eq_true_iff] at hmem
        rw [h] at hmem
        exact Bool.false_ne_true hmem
      rw [h0]
      simp
    · have hmem : dictMem (st.creds ++ [(n, Json.obj [("code", Json.str s)])]) n = true := by
        rw [dictMem_eq_true_iff, List.map_append]
        simp
      simp [add_service, save_creds, hmem]

/-- Witness for C2 on an initially empty credential set. -/
theorem add_service_contract_witness :
    ∃ st', add_service fresh_manager "svc" "MFRGGZDFMZTWQ2LP" = some (true, st')
      ∧ st'.creds = [("svc", Json.obj [("code", Json.str "MFRGGZDFMZTWQ2LP")])]
      ∧ st'.store = some (Json.obj st'.creds)
      ∧ (get_services st').count "svc" = 1
      ∧ add_service st' "svc" "OTHER" = some (false, st') := by
  have h := (add_service_contract fresh_manager "svc" "MFRGGZDFMZTWQ2LP" "OTHER").2 rfl
  exact h

/-- C8: `get_services` lists the service names in ascending lexicographic
order, and its output depends only on which names are present (not on
their insertion order): any two states whose key lists are permutations of
one another produce the identical sorted listing.  (Determinism across
repeated calls is immediate: the embedded operation is a pure function of
the state.) -/
theorem get_services_sorted_and_order_independent (st st' : GenState)
    (hperm : List.Perm (st.creds.map Prod.fst) (st'.creds.map Prod.fst)) :
    List.Sorted (· ≤ ·) (get_services st) ∧ get_services st = get_services st' := by
  have hs : List.Sorted (· ≤ ·) (get_services st) := List.sorted_insertionSort _ _
  have hs' : List.Sorted (· ≤ ·) (get_services st') := List.sorted_insertionSort _ _
  refine ⟨hs, List.eq_of_perm_of_sorted ?_ hs hs'⟩
  exact ((List.perm_insertionSort _ _).trans hperm).trans (List.perm_insertionSort _ _).symm

/-- Witness for C8: the same two names inserted in opposite orders. -/
theorem get_services_sorted_witness :
    List.Sorted (· ≤ ·) (get_services ⟨[("b", Json.null), ("a", Json.null)], none⟩)
    ∧ get_services ⟨[("b", Json.null), ("a", Json.null)], none⟩ =
        get_services ⟨[("a", Json.null), ("b", Json.null)], none⟩ :=
  get_services_sorted_and_order_independent
    ⟨[("b", Json.null), ("a", Json.null)], none⟩
    ⟨[("a", Json.null), ("b", Json.null)], none⟩
    (List.Perm.swap "a" "b" [])

theorem store_of_eq_save {st st' : GenState} {c : Dict Json} {b : Bool}
    (h : some (b, save_creds { st with creds := c }) = some (true, st')) :
    st'.store = some (Json.obj st'.creds) := by
  injection h with h1
  injection h1 with h2 h3
  rw [← h3]
  rfl

/-- C9: after every successful mutating operation — `add_service`,
`edit_service`, `rm_service`, `import_creds_from_file` — the blob held in
the store equals the JSON serialization of the current in-memory
credential set: each of them ends in `save_creds`, so store and memory
agree. -/
theorem every_mutation_persists :
    (∀ st n s st', add_service st n s = some (true, st') →
      st'.store = some (Json.obj st'.creds))
    ∧ (∀ st old nn sec st', edit_service st old nn sec = some (true, st') →
      st'.store = some (Json.obj st'.creds))
    ∧ (∀ st n, (rm_service st n).2.store = some (Json.obj (rm_service st n).2.creds))
    ∧ (∀ st f st', import_creds_from_file st f = some (true, st') →
      st'.store = some (Json.obj st'.creds)) := by
  refine ⟨?_, ?_, fun st n => rfl, ?_⟩
  · intro st n s st' h
    unfold add_service at h
    split at h
    · simp at h
    · split at h
      · simp at h
      · exact store_of_eq_save h
  · intro st old nn sec st' h
    unfold edit_service at h
    split at h
    · simp at h
    · split at h
      · simp at h
      · split at h
        · simp at h
        · split at h
          · simp at h
          · exact store_of_eq_save h
  · intro st f st' h
    match f with
    | none => simp [import_creds_from_file] at h
    | some FileContent.notJson => simp [import_creds_from_file] at h
    | some (FileContent.parsed v) =>
        simp only [import_creds_from_file] at h
        split at h
        · simp at h
        · exact store_of_eq_save h

/-- Witness for C9, exercising the removal and addition paths concretely. -/
theorem every_mutation_persists_witness :
    ((rm_service ⟨[("a", Json.null)], none⟩ "a").2.store =
      some (Json.obj (rm_service ⟨[("a", Json.null)], none⟩ "a").2.creds))
    ∧ (∀ st', add_service fresh_manager "a" "S" = some (true, st') →
        st'.store = some (Json.obj st'.creds)) :=
  ⟨every_mutation_persists.2.2.1 ⟨[("a", Json.null)], none⟩ "a",
    fun st' h => every_mutation_persists.1 fresh_manager "a" "S" st' h⟩

/-- C4 counterexample: a file whose content is valid JSON but not a JSON
object — here the bare number `5` — parses successfully, yet
`import_creds_from_file` neither merges nor returns `true`:
`self.creds.update(5)` raises an uncaught `TypeError` (`none` in this
model), contradicting the claim that `true` is returned whenever the file
parses. -/
theorem import_parsed_nonobject_raises :
    import_creds_from_file fresh_manager (some (FileContent.parsed (Json.num 5))) = none := rfl

/-- C4 amended: `import_creds_from_file` returns `false` with the state
(memory and store) completely unchanged when the file cannot be opened or
its content is not valid JSON; when the file parses as a JSON *object*,
every imported name overwrites any existing entry of the same name,
entries only in the existing set are preserved, the merged result is
persisted, and `true` is returned.  (A file holding valid non-object JSON
instead raises an uncaught error out of the merge step, as the
counterexample shows.) -/
theorem import_creds_contract (st : GenState) (entries : Dict Json)
    (hnd : (entries.map Prod.fst).Nodup) :
    import_creds_from_file st none = some (false, st)
    ∧ import_creds_from_file st (some FileContent.notJson) = some (false, st)
    ∧ ∃ st', import_creds_from_file st (some (FileContent.parsed (Json.obj entries))) =
          some (true, st')
        ∧ st'.creds = dictUpdate st.creds entries
        ∧ st'.store = some (Json.obj st'.creds)
        ∧ (∀ k, dictMem entries k = true → dictGet? st'.creds k = dictGet? entries k)
        ∧ (∀ k, dictMem entries k = false → dictGet? st'.creds k = dictGet? st.creds k) := by
  refine ⟨rfl, rfl, save_creds { st with creds := dictUpdate st.creds entries },
    rfl, rfl, rfl, ?_, ?_⟩
  · intro k hk
    exact dictGet?_dictUpdate_of_mem hnd hk st.creds
  · intro k hk
    exact dictGet?_dictUpdate_of_not_mem hk st.creds

/-- Witness for the amended C4, on the spec's own merge example: existing
`a ↦ X`, import `a ↦ Y, b ↦ Z`. -/
theorem import_creds_contract_witness :
    ∃ st', import_creds_from_file ⟨[("a", Json.obj [("code", Json.str "X")])], none⟩
        (some (FileContent.parsed (Json.obj
          [("a", Json.obj [("code", Json.str "Y")]), ("b", Json.obj [("code", Json.str "Z")])]))) =
        some (true, st')
      ∧ st'.creds = [("a", Json.obj [("code", Json.str "Y")]), ("b", Json.obj [("code", Json.str "Z")])]
      ∧ st'.store = some (Json.obj st'.creds) := by
  obtain ⟨st', h1, h2, h3, -, -⟩ :=
    (import_creds_contract ⟨[("a", Json.obj [("code", Json.str "X")])], none⟩
      [("a", Json.obj [("code", Json.str "Y")]), ("b", Json.obj [("code", Json.str "Z")])]
      (by decide)).2.2
  exact ⟨st', h1, by rw [h2]; rfl, h3⟩

/-- C5: exporting a credential set to a file and importing that file into a
freshly constructed manager with an empty credential set reproduces the
original credential set exactly (same keys, same record values) — and
persists it.  The key-uniqueness hypothesis is the Python dict
representation invariant. -/
theorem export_import_roundtrip (st : GenState) (hnd : (st.creds.map Prod.fst).Nodup) :
    (export_creds_to_file st).1 = true
    ∧ import_creds_from_file fresh_manager (some (export_creds_to_file st).2) =
        some (true, ⟨st.creds, some (Json.obj st.creds)⟩) := by
  refine ⟨rfl, ?_⟩
  have hu : dictUpdate [] st.creds = st.creds := by
    have hd : ∀ p ∈ st.creds, dictMem ([] : Dict Json) p.1 = false := fun p _ => rfl
    rw [dictUpdate_append_of_disjoint hd hnd]
    exact List.nil_append st.creds
  show (match dict_update_py fresh_manager.creds (Json.obj st.creds) with
    | none => none
    | some creds1 => some (true, save_creds { fresh_manager with creds := creds1 })) =
    some (true, ⟨st.creds, some (Json.obj st.creds)⟩)
  simp only [dict_update_py, fresh_manager]
  rw [hu]
  rfl

/-- Witness for C5 on a two-entry credential set. -/
theorem export_import_roundtrip_witness :
    import_creds_from_file fresh_manager
      (some (export_creds_to_file ⟨[("a", Json.obj [("code", Json.str "X")]),
        ("b", Json.obj [("code", Json.str "Y")])], none⟩).2) =
      some (true, ⟨[("a", Json.obj [("code", Json.str "X")]),
        ("b", Json.obj [("code", Json.str "Y")])],
        some (Json.obj [("a", Json.obj [("code", Json.str "X")]),
          ("b", Json.obj [("code", Json.str "Y")])])⟩) :=
  (export_import_roundtrip ⟨[("a", Json.obj [("code", Json.str "X")]),
    ("b", Json.obj [("code", Json.str "Y")])], none⟩ (by decide)).2

/-- C6: a malformed stored secret surfaces only at code-generation time —
`add_service` succeeds or fails based solely on name membership, never on
the secret, and `edit_service`'s outcome is independent of which
(non-empty) secret string is supplied — and at generation time the core
reports two distinct failure reasons: a non-base32 character in the secret
versus an incorrect padding length. -/
theorem malformed_secret_deferred_and_distinguished :
    (∀ st n s, (add_service st n s).map Prod.fst = some (!(dictMem st.creds n)))
    ∧ (∀ st old_name nn s s', s ≠ "" → s' ≠ "" →
        (edit_service st old_name nn (some s)).map Prod.fst =
          (edit_service st old_name nn (some s')).map Prod.fst)
    ∧ get_totp_code ⟨[("a", Json.obj [("code", Json.str "MFRG1===")])], none⟩ "a" 0 =
        some (Except.error B32Error.nonBase32Digit)
    ∧ get_totp_code ⟨[("b", Json.obj [("code", Json.str "MFRGGZDFA")])], none⟩ "b" 0 =
        some (Except.error B32Error.incorrectPadding)
    ∧ B32Error.nonBase32Digit ≠ B32Error.incorrectPadding := by
  refine ⟨?_, ?_, rfl, rfl, by decide⟩
  · intro st n s
    by_cases hmem : dictMem st.creds n
    · simp [add_service, hmem]
    · simp [add_service, hmem, setItemField, dictGet?_dictSet_self]
  · intro st old_name nn s s' hs hs'
    have hts : pyTruthy (some s) = true := by simp [pyTruthy, hs]
    have hts' : pyTruthy (some s') = true := by simp [pyTruthy, hs']
    unfold edit_service
    by_cases h1 : (match nn with
        | some x => dictMem st.creds x
        | none => false) = true
    · rw [if_pos h1, if_pos h1]
    · rw [if_neg h1, if_neg h1, hts, hts']
      simp only [Bool.not_true, Bool.false_and, Bool.false_eq_true, if_false, if_true]
      cases hg : dictGet? st.creds old_name with
      | none => simp [setItemField, hg]
      | some v =>
          cases v with
          | null => simp [setItemField, hg]
          | bool b => simp [setItemField, hg]
          | num m => simp [setItemField, hg]
          | str t => simp [setItemField, hg]
          | arr l => simp [setItemField, hg]
          | obj o =>
              simp only [setItemField, hg]
              cases hpn : pyTruthy nn
              · simp [hpn]
              · simp [hpn, dictGet?_dictSet_self]

/-- Witness for C6: adding a service whose secret is not base32 still
succeeds, and two different (malformed vs well-formed) secrets drive
`edit_service` to the same outcome. -/
theorem malformed_secret_deferred_witness :
    (add_service fresh_manager "n" "NOT!BASE32").map Prod.fst = some true
    ∧ (edit_service ⟨[("a", Json.obj [("code", Json.str "X")])], none⟩ "a" none
        (some "BAD!SECRET")).map Prod.fst =
      (edit_service ⟨[("a", Json.obj [("code", Json.str "X")])], none⟩ "a" none
        (some "MFRGGZDFMZTWQ2LP")).map Prod.fst := by
  constructor
  · exact malformed_secret_deferred_and_distinguished.1 fresh_manager "n" "NOT!BASE32"
  · exact malformed_secret_deferred_and_distinguished.2.1
      ⟨[("a", Json.obj [("code", Json.str "X")])], none⟩ "a" none
      "BAD!SECRET" "MFRGGZDFMZTWQ2LP" (by decide) (by decide)
